import Mathlib

/-!
Verification of the document-store core (Document model, Query model, and the
in-memory evaluation engine) against its specification.

The embedding models JavaScript runtime values as the inductive `Value`:
`undefined` and `null` are separate constructors, numbers are integers
(every number appearing in this code base is integral), strings are Lean
strings, arrays are lists, plain objects and `Document` instances are
association lists of key/value pairs.  Object key association lists use
JS object/Map semantics: assignment to an existing key keeps its position,
new keys are appended.

Functions that in the source recurse through freshly constructed objects
(`new Document(record).clone()` inside `prepareValue`, and the
`Query` constructor / `fromJSON` recursion) take an explicit fuel
parameter; fuel exhaustion yields a distinguished error that real
executions never reach for sufficient fuel, as the concrete and
universally quantified theorems below establish.
-/

inductive Value where
  | vUndefined
  | vNull
  | vBool (b : Bool)
  | vInt (n : Int)
  | vStr (s : String)
  | vArr (items : List Value)
  | vObj (fields : List (String × Value))
  | vDoc (data : List (String × Value))

abbrev Fields := List (String × Value)

/-- A `Document` instance: a wrapper around its private `data` object. -/
structure Document where
  data : Fields

/-- JS object property read (`fields[k]`), `none` meaning absent. -/
def getKey (fields : Fields) (k : String) : Option Value :=
  (fields.find? (fun p => p.1 == k)).map (fun p => p.2)

def hasKeyB (fields : Fields) (k : String) : Bool :=
  fields.any (fun p => p.1 == k)

/-- JS object property write (`fields[k] = v`): overwrite in place, else append. -/
def setKey (fields : Fields) (k : String) (v : Value) : Fields :=
  if hasKeyB fields k then fields.map (fun p => if p.1 == k then (k, v) else p)
  else fields ++ [(k, v)]

/-- `value === undefined || value === null`. -/
def isNullish : Value → Bool
  | .vNull => true
  | .vUndefined => true
  | _ => false

def isStringV : Value → Bool
  | .vStr _ => true
  | _ => false

def isArrV : Value → Bool
  | .vArr _ => true
  | _ => false

/-- JS `typeof v` is object and `v` is not null (arrays, plain objects and Documents). -/
def isObjectLike : Value → Bool
  | .vArr _ => true
  | .vObj _ => true
  | .vDoc _ => true
  | _ => false

mutual
/-- JS `String(v)` coercion.  Arrays stringify as their comma-joined items
(with `null`/`undefined` items becoming empty), objects and Document
instances as `"[object Object]"`. -/
def jsToString : Value → String
  | .vUndefined => "undefined"
  | .vNull => "null"
  | .vBool b => if b then "true" else "false"
  | .vInt n => toString n
  | .vStr s => s
  | .vArr items => jsArrString items
  | .vObj _ => "[object Object]"
  | .vDoc _ => "[object Object]"

def jsArrString : List Value → String
  | [] => ""
  | [v] => jsItemString v
  | v :: rest => jsItemString v ++ "," ++ jsArrString rest

def jsItemString : Value → String
  | .vUndefined => ""
  | .vNull => ""
  | .vBool b => if b then "true" else "false"
  | .vInt n => toString n
  | .vStr s => s
  | .vArr items => jsArrString items
  | .vObj _ => "[object Object]"
  | .vDoc _ => "[object Object]"
end

/-- JS string comparison: lexicographic in code units (code points here). -/
def charsLt : List Char → List Char → Bool
  | _, [] => false
  | [], _ :: _ => true
  | a :: as, b :: bs =>
    if a.val.toNat < b.val.toNat then true
    else if b.val.toNat < a.val.toNat then false
    else charsLt as bs

def strLt (a b : String) : Bool := charsLt a.data b.data

/-- JS strict equality `===`.  Primitives compare by value; arrays, plain
objects and Documents compare by reference, which is `false` at every
call site in this code base (operands always come from distinct
clones / distinct provenance), so composite values compare unequal. -/
def strictEq : Value → Value → Bool
  | .vNull, .vNull => true
  | .vUndefined, .vUndefined => true
  | .vBool x, .vBool y => x == y
  | .vInt x, .vInt y => x == y
  | .vStr x, .vStr y => x == y
  | _, _ => false

def digitVal (c : Char) : Option Nat :=
  if 48 ≤ c.val ∧ c.val ≤ 57 then some (c.val.toNat - 48) else none

def digitsAcc : List Char → Nat → Option Nat
  | [], acc => some acc
  | c :: rest, acc =>
    match digitVal c with
    | some d => digitsAcc rest (acc * 10 + d)
    | none => none

def isSpaceChar (c : Char) : Bool :=
  c == ' ' || c.val == 9 || c.val == 10 || c.val == 11 || c.val == 12 || c.val == 13

/-- Trim leading and trailing whitespace (`String.prototype.trim`). -/
def jsTrim (s : String) : String :=
  String.mk ((((s.data.dropWhile isSpaceChar).reverse).dropWhile isSpaceChar).reverse)

/-- JS `ToNumber` on a string, restricted to the integral universe of this
model: the empty (or all-whitespace) string is `0`, optionally signed
decimal digit strings are their value, everything else is `NaN` (`none`).
(Fractional, exponent and hex literals lie outside the modelled `vInt`
number universe.) -/
def parseIntStr (s : String) : Option Int :=
  let t := jsTrim s
  if t = "" then some 0
  else
    match t.data with
    | '-' :: rest =>
      if rest = [] then none else (digitsAcc rest 0).map (fun n => -(n : Int))
    | '+' :: rest =>
      if rest = [] then none else (digitsAcc rest 0).map (fun n => (n : Int))
    | cs => (digitsAcc cs 0).map (fun n => (n : Int))

/-- JS `ToNumber`; `none` is `NaN`. Objects convert through their string form. -/
def toNumber : Value → Option Int
  | .vNull => some 0
  | .vUndefined => none
  | .vBool b => some (if b then 1 else 0)
  | .vInt n => some n
  | .vStr s => parseIntStr s
  | .vArr items => parseIntStr (jsArrString items)
  | .vObj _ => parseIntStr "[object Object]"
  | .vDoc _ => parseIntStr "[object Object]"

/-- JS `ToPrimitive` (default/number hint) as used by relational operators:
composites become their string form. -/
def toPrim : Value → Value
  | .vArr items => .vStr (jsArrString items)
  | .vObj _ => .vStr "[object Object]"
  | .vDoc _ => .vStr "[object Object]"
  | v => v

/-- The JS `<` operator: string comparison when both primitives are strings,
otherwise numeric comparison, `false` when either side is `NaN`. -/
def jsLtB (a b : Value) : Bool :=
  match toPrim a, toPrim b with
  | .vStr x, .vStr y => strLt x y
  | pa, pb =>
    match toNumber pa, toNumber pb with
    | some x, some y => decide (x < y)
    | _, _ => false

/-- The JS `>` operator (`a > b` is the less-than algorithm on `(b, a)`). -/
def jsGtB (a b : Value) : Bool := jsLtB b a

/-- `MemoryAdapter.compareValues`: the §4.3.1 total-order comparator backing
the relational operators. -/
def compareValues (a b : Value) : Int :=
  if strictEq a b then 0
  else if isNullish a then -1
  else if isNullish b then 1
  else
    match a, b with
    | .vInt x, .vInt y => x - y
    | a, b =>
      let sa := jsToString a
      let sb := jsToString b
      if sa = sb then 0 else if strLt sb sa then 1 else -1

/-- Integer sign: `-1`, `0` or `1`. -/
def sgn (n : Int) : Int := if n < 0 then -1 else if n = 0 then 0 else 1

inductive Direction where
  | asc
  | desc
deriving DecidableEq

/-- `document.getAttribute(key)` with no default: the stored value, or
`undefined` when the key is absent. -/
def getAttributeV (d : Document) (k : String) : Value :=
  (getKey d.data k).getD .vUndefined

/-- `MemoryAdapter.compareDocuments`: walk the order keys; equal references
continue to the next key, null/undefined values sort first (ascending),
otherwise the raw JS relational operators decide, with the direction
flipping the sign of every outcome. -/
def compareDocuments (a b : Document) : List (String × Direction) → Int
  | [] => 0
  | (attr, dir) :: rest =>
    let av := getAttributeV a attr
    let bv := getAttributeV b attr
    if strictEq av bv then compareDocuments a b rest
    else if isNullish av then (match dir with | .asc => -1 | .desc => 1)
    else if isNullish bv then (match dir with | .asc => 1 | .desc => -1)
    else if jsGtB av bv then (match dir with | .asc => 1 | .desc => -1)
    else if jsLtB av bv then (match dir with | .asc => -1 | .desc => 1)
    else compareDocuments a b rest

/-- Stable insertion used to model `Array.prototype.sort` (stable per the
ECMAScript spec) with a comparator. -/
def insertSorted (cmp : Document → Document → Int) (x : Document) :
    List Document → List Document
  | [] => [x]
  | y :: ys => if cmp x y ≤ 0 then x :: y :: ys else y :: insertSorted cmp x ys

/-- Stable sort by comparator (insertion sort: stable, and agrees with any
correct stable sort for a consistent comparator). -/
def sortByCmp (cmp : Document → Document → Int) (l : List Document) : List Document :=
  l.foldr (insertSorted cmp) []

mutual
/-- `Document.toJSON` at the level of one attribute value: a Document value
is exported recursively, an array exports its *direct* Document items;
plain objects (and anything nested deeper inside them or inside nested
arrays) are passed through unchanged, exactly as in the source. -/
def exportTop : Value → Value
  | .vDoc data => .vObj (exportFields data)
  | .vArr items => .vArr (exportItems items)
  | v => v

def exportItems : List Value → List Value
  | [] => []
  | .vDoc data :: rest => .vObj (exportFields data) :: exportItems rest
  | v :: rest => v :: exportItems rest

/-- `Document.toJSON` on the whole data object. -/
def exportFields : Fields → Fields
  | [] => []
  | (k, v) :: rest => (k, exportTop v) :: exportFields rest
end

def fuelErr : String := "out of fuel"

mutual
/-- The `Document` constructor body (`this.data = {}; this.replace(input)`),
fuelled; every recursive step burns one unit of fuel. -/
def makeF : Nat → Fields → Except String Fields
  | 0, _ => .error fuelErr
  | n + 1, input => replaceF n [] input

/-- `Document.replace`: iterate the input entries; `$id` must be a string
(when not nullish), `$permissions` must be an array and its items are
string-coerced; every other value is normalised by `prepareValue`. -/
def replaceF : Nat → Fields → Fields → Except String Fields
  | 0, _, _ => .error fuelErr
  | _ + 1, acc, [] => .ok acc
  | n + 1, acc, (k, v) :: rest =>
    if k == "$id" && !(isNullish v) then
      match v with
      | .vStr s => replaceF n (setKey acc k (.vStr s)) rest
      | _ => .error "$id must be of type string"
    else if k == "$permissions" && !(isNullish v) then
      match v with
      | .vArr items =>
        replaceF n (setKey acc k (.vArr (items.map (fun x => .vStr (jsToString x))))) rest
      | _ => .error "$permissions must be an array"
    else do
      let w ← prepF n v
      replaceF n (setKey acc k w) rest

/-- `Document.prepareValue`: Document values are cloned, arrays normalise
their items, plain objects carrying `$id` or `$collection` become
Documents (constructed then cloned), other plain objects are normalised
entrywise, primitives pass through. -/
def prepF : Nat → Value → Except String Value
  | 0, _ => .error fuelErr
  | n + 1, .vDoc data => do
    let c ← cloneF n data
    .ok (.vDoc c)
  | n + 1, .vArr items => do
    let ws ← prepItemsF n items
    .ok (.vArr ws)
  | n + 1, .vObj fields =>
    if hasKeyB fields "$id" || hasKeyB fields "$collection" then do
      let d ← makeF n fields
      let c ← cloneF n d
      .ok (.vDoc c)
    else do
      let fs ← prepFieldsF n fields
      .ok (.vObj fs)
  | _ + 1, v => .ok v

def prepItemsF : Nat → List Value → Except String (List Value)
  | 0, _ => .error fuelErr
  | _ + 1, [] => .ok []
  | n + 1, v :: rest => do
    let w ← prepF n v
    let ws ← prepItemsF n rest
    .ok (w :: ws)

def prepFieldsF : Nat → Fields → Except String Fields
  | 0, _ => .error fuelErr
  | _ + 1, [] => .ok []
  | n + 1, (k, v) :: rest => do
    let w ← prepF n v
    let ws ← prepFieldsF n rest
    .ok ((k, w) :: ws)

/-- `Document.clone` on raw data: `new Document(this.toJSON())`. -/
def cloneF : Nat → Fields → Except String Fields
  | 0, _ => .error fuelErr
  | n + 1, data => makeF n (exportFields data)
end

/-- `new Document(input)`. -/
def makeDoc (n : Nat) (input : Fields) : Except String Document :=
  (makeF n input).map Document.mk

/-- `document.clone()`. -/
def cloneDoc (n : Nat) (d : Document) : Except String Document :=
  (cloneF n d.data).map Document.mk

/-- `document.toJSON()`. -/
def toJSONDoc (d : Document) : Fields := exportFields d.data

/-- `document.setAttribute(key, value)`: re-normalise the value, assign it;
no validation of any kind is performed here. -/
def setAttributeF (n : Nat) (d : Document) (k : String) (v : Value) :
    Except String Document :=
  (prepF n v).map (fun w => Document.mk (setKey d.data k w))

/-- `(data.$id as string) ?? ''` of `getId`.  For every constructible
Document `$id` is a string or nullish (the constructor enforces this), so
the non-string non-nullish case (reachable only through the unvalidated
`setAttribute`) is totalised to the empty string. -/
def getIdStr (data : Fields) : String :=
  match getKey data "$id" with
  | some (.vStr s) => s
  | _ => ""

def getId (d : Document) : String := getIdStr d.data

def getCollection (d : Document) : String :=
  match getKey d.data "$collection" with
  | some (.vStr s) => s
  | _ => ""

/-- The `VALID_METHODS` set of `Query` (§6 operator enum, exact strings). -/
def validMethods : List String :=
  ["equal", "notEqual", "lessThan", "lessThanEqual", "greaterThan",
   "greaterThanEqual", "contains", "notContains", "search", "notSearch",
   "isNull", "isNotNull", "between", "startsWith", "notStartsWith",
   "endsWith", "notEndsWith", "limit", "offset", "orderAsc", "orderDesc",
   "select", "and", "or"]

/-- `Query.isMethod`. -/
def isMethod (m : String) : Bool := validMethods.contains m

/-- Membership in `LOGICAL_METHODS`. -/
def isLogical (m : String) : Bool := m == "and" || m == "or"

mutual
/-- A `Query` instance: method, attribute and the operand values. -/
inductive QueryT where
  | mk (method : String) (attr : String) (values : List QVal)

/-- One operand of a query: a plain runtime value or a nested `Query`
instance (the latter only ever constructed for logical methods). -/
inductive QVal where
  | val (v : Value)
  | query (q : QueryT)
end

def QueryT.method : QueryT → String
  | .mk m _ _ => m

def QueryT.attr : QueryT → String
  | .mk _ a _ => a

def QueryT.values : QueryT → List QVal
  | .mk _ _ vs => vs

/-- Property access `json[k]` on an arbitrary runtime value: only plain
objects carry the query JSON fields; on every other value the lookup is
`undefined` (absent). -/
def getField : Value → String → Option Value
  | .vObj fields, k => getKey fields k
  | _, _ => none

mutual
/-- `Query.fromJSON`, fuelled (the recursion passes through the `Query`
constructor, which re-parses plain-object operands of logical methods).
A non-string `attribute` field is totalised to `''` (the source keeps the
raw value, which no constructible query produces).  A present non-array
`values` field is an error (the source would crash mapping over it). -/
def fromJSONF : Nat → Value → Except String QueryT
  | 0, _ => .error fuelErr
  | n + 1, j =>
    match getField j "method" with
    | some (.vStr m) =>
      if isMethod m then
        let attr :=
          match getField j "attribute" with
          | some (.vStr s) => s
          | _ => ""
        match getField j "values" with
        | some (.vArr entries) =>
          if isLogical m then do
            let qsL ← fromJSONListF n entries
            queryNewF n m attr (qsL.map QVal.query)
          else queryNewF n m attr (entries.map QVal.val)
        | some .vNull => queryNewF n m attr []
        | some .vUndefined => queryNewF n m attr []
        | none => queryNewF n m attr []
        | some _ => .error "query values must be an array"
      else .error ("Invalid query method: " ++ m)
    | some v => .error ("Invalid query method: " ++ jsToString v)
    | none => .error "Invalid query method: undefined"

def fromJSONListF : Nat → List Value → Except String (List QueryT)
  | 0, _ => .error fuelErr
  | _ + 1, [] => .ok []
  | n + 1, v :: rest => do
    let q ← fromJSONF n v
    let qsL ← fromJSONListF n rest
    .ok (q :: qsL)

/-- The `Query` constructor: for logical methods each operand must be a
`Query` instance (cloned) or an object (re-parsed through `fromJSON`),
anything else throws; for every other method — including unrecognised
ones — the operands are stored untouched and *no validation happens*. -/
def queryNewF : Nat → String → String → List QVal → Except String QueryT
  | 0, _, _, _ => .error fuelErr
  | n + 1, m, a, vals =>
    if isLogical m then do
      let ws ← ctorValsF n vals
      .ok (.mk m a ws)
    else .ok (.mk m a vals)

def ctorValsF : Nat → List QVal → Except String (List QVal)
  | 0, _ => .error fuelErr
  | _ + 1, [] => .ok []
  | n + 1, qv :: rest => do
    let w ←
      match qv with
      | .query q => (qCloneF n q).map QVal.query
      | .val v =>
        if isObjectLike v then (fromJSONF n v).map QVal.query
        else .error "Logical queries must contain Query instances"
    let ws ← ctorValsF n rest
    .ok (w :: ws)

/-- `query.clone()`: `new Query(this.method, this.attribute, this.values)`. -/
def qCloneF : Nat → QueryT → Except String QueryT
  | 0, _ => .error fuelErr
  | n + 1, .mk m a vals => queryNewF n m a vals
end

/-- `value instanceof Document ? value.getId() : value` (`Query.toJSON`,
non-logical branch). -/
def reduceTop : Value → Value
  | .vDoc data => .vStr (getIdStr data)
  | v => v

mutual
/-- `query.toJSON()`: `{method, attribute?, values}` with the attribute key
omitted when empty; logical methods serialise nested queries recursively,
all other methods reduce Document operands to their id. -/
def toJSONQ : QueryT → Value
  | .mk m a vals =>
    let vsJson := if isLogical m then toJSONVals vals else toJSONPlain vals
    let base : Fields := [("method", .vStr m)]
    let base2 := if a == "" then base else base ++ [("attribute", .vStr a)]
    .vObj (base2 ++ [("values", .vArr vsJson)])

def toJSONVals : List QVal → List Value
  | [] => []
  | .query q :: rest => toJSONQ q :: toJSONVals rest
  | .val v :: rest => v :: toJSONVals rest

def toJSONPlain : List QVal → List Value
  | [] => []
  | .val v :: rest => reduceTop v :: toJSONPlain rest
  | .query q :: rest => toJSONQ q :: toJSONPlain rest
end

mutual
/-- A query with every top-level Document operand of a non-logical method
replaced by its `$id` string — the image of a query under one
serialisation round trip. -/
def reduceQ : QueryT → QueryT
  | .mk m a vals =>
    .mk m a (if isLogical m then reduceQValsL vals else reduceQValsP vals)

def reduceQValsL : List QVal → List QVal
  | [] => []
  | .query q :: rest => .query (reduceQ q) :: reduceQValsL rest
  | .val v :: rest => .val v :: reduceQValsL rest

def reduceQValsP : List QVal → List QVal
  | [] => []
  | .val v :: rest => .val (reduceTop v) :: reduceQValsP rest
  | .query q :: rest => .query q :: reduceQValsP rest
end

mutual
/-- No `undefined` and no Document instance anywhere inside a value: such
values survive `JSON.stringify`/`JSON.parse` textual round-tripping
unchanged, so the wire format is modelled at the JSON-tree level. -/
def deepSafe : Value → Bool
  | .vUndefined => false
  | .vDoc _ => false
  | .vArr items => deepSafeList items
  | .vObj fields => deepSafeFields fields
  | _ => true

def deepSafeList : List Value → Bool
  | [] => true
  | v :: rest => deepSafe v && deepSafeList rest

def deepSafeFields : Fields → Bool
  | [] => true
  | (_, v) :: rest => deepSafe v && deepSafeFields rest
end

/-- A valid non-logical operand: a Document instance at top level (which
serialisation replaces by its id) or a JSON-safe plain value. -/
def topSafe : Value → Bool
  | .vDoc _ => true
  | v => deepSafe v

mutual
/-- Constructible queries (§3/§6 data model): a recognised method; logical
methods hold exclusively nested (constructible) queries, every other
method holds exclusively plain JSON-safe operands or Document operands. -/
def WFQb : QueryT → Bool
  | .mk m _ vals =>
    isMethod m && (if isLogical m then wfLogicalVals vals else wfPlainVals vals)

def wfLogicalVals : List QVal → Bool
  | [] => true
  | .query q :: rest => WFQb q && wfLogicalVals rest
  | .val _ :: _ => false

def wfPlainVals : List QVal → Bool
  | [] => true
  | .val v :: rest => topSafe v && wfPlainVals rest
  | .query _ :: _ => false
end

/-- The raw runtime value of one operand as the evaluator reads it
(`query.getValues()` elements).  A nested `Query` instance read as a plain
operand behaves as an object for comparison purposes (never produced by a
constructible non-logical query); it is modelled by the empty object. -/
def coerceQV : QVal → Value
  | .val v => v
  | .query _ => .vObj []

/-- `const [first, second] = query.getValues()`: positional destructuring,
absent positions are `undefined`. -/
def qvalAt (vals : List QVal) (i : Nat) : Value :=
  match vals.get? i with
  | some qv => coerceQV qv
  | none => .vUndefined

/-- `MemoryAdapter.containsValue`: an array attribute must contain every
candidate (by comparator equality); a scalar attribute must equal one. -/
def containsValueB (source : Value) (cands : List Value) : Bool :=
  match source with
  | .vArr items => cands.all (fun c => items.any (fun item => compareValues item c == 0))
  | _ => cands.any (fun c => compareValues source c == 0)

def toLowerStr (s : String) : String := String.mk (s.data.map Char.toLower)

def startsWithChars : List Char → List Char → Bool
  | _, [] => true
  | [], _ :: _ => false
  | a :: as, b :: bs => a == b && startsWithChars as bs

def containsSub : List Char → List Char → Bool
  | s, pat =>
    if startsWithChars s pat then true
    else
      match s with
      | [] => false
      | _ :: rest => containsSub rest pat

/-- `MemoryAdapter.search`: case-insensitive substring test on a string
attribute, `false` otherwise.  (A non-string needle would crash in the
source; no factory-built query produces one, modelled as `false`.) -/
def searchB (source : Value) (needle : Value) : Bool :=
  match source, needle with
  | .vStr s, .vStr ns => containsSub (toLowerStr s).data (toLowerStr ns).data
  | _, _ => false

/-- `MemoryAdapter.startsWith` (the leading-substring operand is string-coerced by JS). -/
def startsWithB (source : Value) (p : Value) : Bool :=
  match source with
  | .vStr s => startsWithChars s.data (jsToString p).data
  | _ => false

/-- `MemoryAdapter.endsWith`. -/
def endsWithB (source : Value) (p : Value) : Bool :=
  match source with
  | .vStr s => startsWithChars s.data.reverse (jsToString p).data.reverse
  | _ => false

mutual
/-- `MemoryAdapter.evaluate`: one query against one document.  Logical
methods recurse; every other method reads the named attribute and
dispatches on the operator; an unrecognised operator is vacuously true.
(A plain operand inside a logical query would crash in the source — no
constructible query has one; it is skipped here.) -/
def evaluate (d : Document) : QueryT → Bool
  | .mk m attr vals =>
    if m == "and" then evalAll d vals
    else if m == "or" then evalAny d vals
    else
      let value := getAttributeV d attr
      let first := qvalAt vals 0
      let second := qvalAt vals 1
      if m == "equal" then vals.any (fun c => compareValues value (coerceQV c) == 0)
      else if m == "notEqual" then vals.all (fun c => !(compareValues value (coerceQV c) == 0))
      else if m == "lessThan" then decide (compareValues value first < 0)
      else if m == "lessThanEqual" then decide (compareValues value first ≤ 0)
      else if m == "greaterThan" then decide (compareValues value first > 0)
      else if m == "greaterThanEqual" then decide (compareValues value first ≥ 0)
      else if m == "contains" then containsValueB value (vals.map coerceQV)
      else if m == "notContains" then !containsValueB value (vals.map coerceQV)
      else if m == "search" then searchB value first
      else if m == "notSearch" then !searchB value first
      else if m == "isNull" then isNullish value
      else if m == "isNotNull" then !isNullish value
      else if m == "between" then
        decide (compareValues value first ≥ 0) && decide (compareValues value second ≤ 0)
      else if m == "startsWith" then startsWithB value first
      else if m == "notStartsWith" then !startsWithB value first
      else if m == "endsWith" then endsWithB value first
      else if m == "notEndsWith" then !endsWithB value first
      else true

def evalAll (d : Document) : List QVal → Bool
  | [] => true
  | .query q :: rest => evaluate d q && evalAll d rest
  | .val _ :: rest => evalAll d rest

def evalAny (d : Document) : List QVal → Bool
  | [] => false
  | .query q :: rest => evaluate d q || evalAny d rest
  | .val _ :: rest => evalAny d rest
end

/-- The partition accumulated by the first loop of `applyQueries`. -/
structure Partition where
  filters : List QueryT
  order : List (String × Direction)
  limit : Option Int
  offset : Int
  sel : Option (List String)

def emptyPartition : Partition := ⟨[], [], none, 0, none⟩

def qvalStr : QVal → Option String
  | .val (.vStr s) => some s
  | _ => none

/-- One step of the partition loop: `limit`/`offset` record their first
operand when it is a number (last occurrence wins), order methods append a
sort key, `select` records its fields when they are all strings, and
everything else is a filter. -/
def partitionStep (p : Partition) (q : QueryT) : Partition :=
  match q with
  | .mk m attr vals =>
    if m == "limit" then
      match vals with
      | .val (.vInt n) :: _ => ⟨p.filters, p.order, some n, p.offset, p.sel⟩
      | _ => p
    else if m == "offset" then
      match vals with
      | .val (.vInt n) :: _ => ⟨p.filters, p.order, p.limit, n, p.sel⟩
      | _ => p
    else if m == "orderAsc" then
      ⟨p.filters, p.order ++ [(attr, .asc)], p.limit, p.offset, p.sel⟩
    else if m == "orderDesc" then
      ⟨p.filters, p.order ++ [(attr, .desc)], p.limit, p.offset, p.sel⟩
    else if m == "select" then
      if vals.all (fun qv => (qvalStr qv).isSome) then
        ⟨p.filters, p.order, p.limit, p.offset, some (vals.filterMap qvalStr)⟩
      else p
    else ⟨p.filters ++ [q], p.order, p.limit, p.offset, p.sel⟩

def partitionQueries (qs : List QueryT) : Partition :=
  qs.foldl partitionStep emptyPartition

/-- `Array.prototype.slice(start)` for an integral start. -/
def jsSliceFrom (l : List Document) (start : Int) : List Document :=
  if start < 0 then l.drop (max ((l.length : Int) + start) 0).toNat
  else l.drop start.toNat

/-- `Array.prototype.slice(0, stop)` for an integral stop. -/
def jsSliceTo (l : List Document) (stop : Int) : List Document :=
  if stop < 0 then l.take (max ((l.length : Int) + stop) 0).toNat
  else l.take stop.toNat

/-- `MemoryAdapter.applySelect`: a fresh Document holding the selected
attributes plus the `$id` and `$collection` identity metadata. -/
def applySelectF (n : Nat) (d : Document) (sel : List String) : Except String Document :=
  let selected := sel.foldl (fun acc f => setKey acc f (getAttributeV d f)) []
  let selected := setKey selected "$id" (.vStr (getId d))
  let selected := setKey selected "$collection" (.vStr (getCollection d))
  makeDoc n selected

def mapSelectF (n : Nat) (ds : List Document) (sel : List String) :
    Except String (List Document) :=
  ds.mapM (fun d => applySelectF n d sel)

/-- `MemoryAdapter.applyQueries`: partition, filter by the conjunction of
the filter queries, stable-sort when sort keys exist, apply offset (when
truthy) then limit (when numeric), then projection (when a non-empty
select list exists). -/
def applyQueriesF (n : Nat) (docs : List Document) (qs : List QueryT) :
    Except String (List Document) :=
  let p := partitionQueries qs
  let r1 := docs.filter (fun d => p.filters.all (fun f => evaluate d f))
  let r2 :=
    if p.order.isEmpty then r1
    else sortByCmp (fun a b => compareDocuments a b p.order) r1
  let r3 := if p.offset == 0 then r2 else jsSliceFrom r2 p.offset
  let r4 :=
    match p.limit with
    | some m => jsSliceTo r3 m
    | none => r3
  match p.sel with
  | some sel => if decide (0 < sel.length) then mapSelectF n r4 sel else .ok r4
  | none => .ok r4

/-- The in-memory store: named collections of id-keyed documents (schema
bookkeeping is out of the verified core). -/
structure AdapterState where
  collections : List (String × List (String × Document))

def lookupColl (s : AdapterState) (name : String) :
    Option (List (String × Document)) :=
  (s.collections.find? (fun p => p.1 == name)).map (fun p => p.2)

def setColl (s : AdapterState) (name : String) (docs : List (String × Document)) :
    AdapterState :=
  ⟨if s.collections.any (fun p => p.1 == name) then
      s.collections.map (fun p => if p.1 == name then (name, docs) else p)
    else s.collections ++ [(name, docs)]⟩

/-- `MemoryAdapter.createCollection` (documents part: a fresh empty map). -/
def createCollection (s : AdapterState) (name : String) : AdapterState :=
  setColl s name []

def squote : String := String.singleton (Char.ofNat 39)

/-- The message of the `requireCollection` not-found error. -/
def collectionMissing (name : String) : String :=
  "Collection " ++ squote ++ name ++ squote ++ " does not exist"

/-- `Map.set` over the id-keyed document list: replace in place or append. -/
def setDocIn (docs : List (String × Document)) (id : String) (d : Document) :
    List (String × Document) :=
  if docs.any (fun p => p.1 == id) then
    docs.map (fun p => if p.1 == id then (id, d) else p)
  else docs ++ [(id, d)]

/-- `MemoryAdapter.createDocument`: require the collection, store a clone
under the document id (overwriting any existing entry), return a clone. -/
def createDocumentF (n : Nat) (s : AdapterState) (coll : String) (doc : Document) :
    Except String (Document × AdapterState) :=
  match lookupColl s coll with
  | none => .error (collectionMissing coll)
  | some docs => do
    let stored ← cloneDoc n doc
    let ret ← cloneDoc n doc
    .ok (ret, setColl s coll (setDocIn docs (getId doc) stored))

/-- `MemoryAdapter.updateDocument`: textually identical to `createDocument`. -/
def updateDocumentF (n : Nat) (s : AdapterState) (coll : String) (doc : Document) :
    Except String (Document × AdapterState) :=
  match lookupColl s coll with
  | none => .error (collectionMissing coll)
  | some docs => do
    let stored ← cloneDoc n doc
    let ret ← cloneDoc n doc
    .ok (ret, setColl s coll (setDocIn docs (getId doc) stored))

/-- `MemoryAdapter.deleteDocument`: require the collection, report whether
the id was present, remove it. -/
def deleteDocument (s : AdapterState) (coll id : String) :
    Except String (Bool × AdapterState) :=
  match lookupColl s coll with
  | none => .error (collectionMissing coll)
  | some docs =>
    .ok (docs.any (fun p => p.1 == id),
      setColl s coll (docs.filter (fun p => !(p.1 == id))))

/-- `MemoryAdapter.getDocument`: a missing collection or id yields `null`
(no error); found documents are returned as clones. -/
def getDocumentF (n : Nat) (s : AdapterState) (coll id : String) :
    Except String (Option Document) :=
  match lookupColl s coll with
  | none => .ok none
  | some docs =>
    match (docs.find? (fun p => p.1 == id)).map (fun p => p.2) with
    | none => .ok none
    | some d => (cloneDoc n d).map some

/-- `MemoryAdapter.listDocuments`: a missing collection yields `[]` (no
error); otherwise clone every stored document and run `applyQueries`. -/
def listDocumentsF (n : Nat) (s : AdapterState) (coll : String) (qs : List QueryT) :
    Except String (List Document) :=
  match lookupColl s coll with
  | none => .ok []
  | some docs => do
    let cloned ← docs.mapM (fun p => cloneDoc n p.2)
    applyQueriesF n cloned qs

mutual
/-- The invariant the `Query` constructor maintains: operand values of a
logical method are `Query` instances, recursively (`clone` is the
identity on such queries in this structural model). -/
def CWFb : QueryT → Bool
  | .mk m _ vals => if isLogical m then cwfVals vals else true

def cwfVals : List QVal → Bool
  | [] => true
  | .query q :: rest => CWFb q && cwfVals rest
  | .val _ :: _ => false
end

/-- Two values of the same primitive kind: both nullish, both numbers, both
strings, or both booleans. -/
def SameKind (a b : Value) : Prop :=
  (isNullish a = true ∧ isNullish b = true)
  ∨ (∃ x y, a = .vInt x ∧ b = .vInt y)
  ∨ (∃ x y, a = .vStr x ∧ b = .vStr y)
  ∨ (∃ x y, a = .vBool x ∧ b = .vBool y)

/-- Pagination queries (consumed as `limit`/`offset` by the partition). -/
def isPagB (q : QueryT) : Bool :=
  q.method == "limit" || q.method == "offset"

def stripPag (qs : List QueryT) : List QueryT :=
  qs.filter (fun q => !isPagB q)

/-- A partition with pagination reset to its defaults. -/
def resetPag (p : Partition) : Partition :=
  ⟨p.filters, p.order, none, 0, p.sel⟩

theorem charsLt_trichotomy : ∀ a b : List Char, a = b ∨ charsLt a b = true ∨ charsLt b a = true := by
  intro a
  induction a with
  | nil =>
    intro b
    cases b with
    | nil => exact Or.inl rfl
    | cons c cs => exact Or.inr (Or.inl rfl)
  | cons x xs ih =>
    intro b
    cases b with
    | nil => exact Or.inr (Or.inr rfl)
    | cons y ys =>
      by_cases hxy : x.val.toNat < y.val.toNat
      · refine Or.inr (Or.inl ?_)
        simp [charsLt, hxy]
      · by_cases hyx : y.val.toNat < x.val.toNat
        · refine Or.inr (Or.inr ?_)
          simp [charsLt, hyx]
        · have hv : x.val = y.val := by
            have : x.val.toNat = y.val.toNat := by omega
            exact UInt32.ext this
          have hx : x = y := Char.ext hv
          subst hx
          rcases ih ys with h | h | h
          · exact Or.inl (by rw [h])
          · exact Or.inr (Or.inl (by simp [charsLt, hxy, h]))
          · exact Or.inr (Or.inr (by simp [charsLt, hxy, h]))

theorem strLt_trichotomy (s t : String) : s = t ∨ strLt s t = true ∨ strLt t s = true := by
  rcases charsLt_trichotomy s.data t.data with h | h | h
  · exact Or.inl (String.ext h)
  · exact Or.inr (Or.inl h)
  · exact Or.inr (Or.inr h)

theorem isNullish_iff (v : Value) : isNullish v = true ↔ v = .vNull ∨ v = .vUndefined := by
  cases v <;> simp [isNullish]

theorem compareDocuments_single (x y : Value) (dir : Direction) :
    compareDocuments ⟨[("k", x)]⟩ ⟨[("k", y)]⟩ [("k", dir)] =
      (if strictEq x y then 0
       else if isNullish x then (match dir with | .asc => -1 | .desc => 1)
       else if isNullish y then (match dir with | .asc => 1 | .desc => -1)
       else if jsGtB x y then (match dir with | .asc => 1 | .desc => -1)
       else if jsLtB x y then (match dir with | .asc => -1 | .desc => 1)
       else 0) := rfl

/-- Claim C1 (counterexample): the per-key comparison applied by
orderAsc/orderDesc sorting (`compareDocuments`, before the direction sign)
and the §4.3.1 comparator (`compareValues`) disagree in sign on the
mixed-type attribute values `2` and `"10"`: the ordering comparison is
numeric (`2 < 10`), the relational comparator compares string forms
(`"2" > "10"`). -/
theorem c1_counterexample :
    sgn (compareDocuments ⟨[("k", .vInt 2)]⟩ ⟨[("k", .vStr "10")]⟩ [("k", Direction.asc)]) ≠
      sgn (compareValues (.vInt 2) (.vStr "10")) := by
  decide

/-- Claim C1 (amended): the ordering comparison of `compareDocuments`
(ascending, before the direction sign) agrees in sign with `compareValues`
whenever the two attribute values are of the same primitive kind — both
null/undefined, both numbers, both strings or both booleans; mixed-kind
pairs can disagree (see the counterexample). -/
theorem c1_amended (a b : Value) (h : SameKind a b) :
    sgn (compareDocuments ⟨[("k", a)]⟩ ⟨[("k", b)]⟩ [("k", Direction.asc)]) =
      sgn (compareValues a b) := by
  rcases h with ⟨ha, hb⟩ | ⟨x, y, ha, hb⟩ | ⟨x, y, ha, hb⟩ | ⟨x, y, ha, hb⟩
  · rcases (isNullish_iff a).mp ha with h1 | h1 <;>
      rcases (isNullish_iff b).mp hb with h2 | h2 <;> subst h1 <;> subst h2 <;> decide
  · subst ha; subst hb
    rw [compareDocuments_single]
    by_cases hxy : x = y
    · subst hxy
      simp [strictEq, compareValues, sgn]
    · have hne : (x == y) = false := by simp [hxy]
      simp only [strictEq, hne, compareValues, isNullish, jsGtB, jsLtB, toPrim, toNumber,
        Bool.false_eq_true, if_false]
      by_cases hlt : y < x
      · have hd : (decide (y < x)) = true := by simp [hlt]
        simp only [hd, if_true, sgn]
        have hpos : ¬ (x - y < 0) := by omega
        have hz : ¬ (x - y = 0) := by omega
        simp [hpos, hz]
      · have hlt2 : x < y := by
          rcases lt_or_ge x y with h | h
          · exact h
          · exact absurd (lt_of_le_of_ne h (fun hh => hxy hh.symm)) hlt
        have hd1 : (decide (y < x)) = false := by simp [hlt]
        have hd2 : (decide (x < y)) = true := by simp [hlt2]
        simp only [hd1, hd2, if_false, if_true, sgn]
        have hneg : x - y < 0 := by omega
        simp [hneg]
  · subst ha; subst hb
    rw [compareDocuments_single]
    by_cases hxy : x = y
    · subst hxy
      simp [strictEq, compareValues, sgn]
    · have hne : (x == y) = false := by simp [hxy]
      simp only [strictEq, hne, compareValues, isNullish, jsGtB, jsLtB, toPrim, jsToString,
        Bool.false_eq_true, if_false]
      by_cases hts : strLt y x = true
      · simp [hts, hxy, sgn]
      · rcases strLt_trichotomy x y with h | h | h
        · exact absurd h hxy
        · have hts2 : strLt y x = false := by
            cases hq : strLt y x
            · rfl
            · exact absurd hq hts
          simp [hts2, h, hxy, sgn]
        · exact absurd h hts
  · subst ha; subst hb
    cases x <;> cases y <;> decide

/-- Claim C1 (witness): the amended agreement instantiated at the
same-kind pair `3` and `5`. -/
theorem c1_witness :
    sgn (compareDocuments ⟨[("k", .vInt 3)]⟩ ⟨[("k", .vInt 5)]⟩ [("k", Direction.asc)]) =
      sgn (compareValues (.vInt 3) (.vInt 5)) :=
  c1_amended (.vInt 3) (.vInt 5) (Or.inr (Or.inl ⟨3, 5, rfl, rfl⟩))

theorem isLogical_isMethod (m : String) (h : isLogical m = true) : isMethod m = true := by
  rcases (Bool.or_eq_true _ _).mp h with h1 | h1
  · rw [eq_of_beq h1]; rfl
  · rw [eq_of_beq h1]; rfl

/-- Claim C2 (counterexample): the `Query` constructor performs no method
validation: invoked with the unrecognised method `"bogus"` it succeeds and
produces a Query object instead of failing. -/
theorem c2_counterexample :
    isMethod "bogus" = false ∧
      queryNewF 1 "bogus" "attr" [] = .ok (.mk "bogus" "attr" []) := by
  exact ⟨by decide, rfl⟩

/-- Claim C2 (amended): for an unrecognised method `fromJSON` (and hence
`parse`) fails validation with the invalid-method error, but the `Query`
constructor accepts any method string and returns the Query unchanged —
only `fromJSON` validates methods. -/
theorem c2_amended (m : String) (hm : isMethod m = false) :
    (∀ n fields, getKey fields "method" = some (.vStr m) →
        fromJSONF (n + 1) (.vObj fields) = .error ("Invalid query method: " ++ m))
    ∧ (∀ n attr vals, queryNewF (n + 1) m attr vals = .ok (.mk m attr vals)) := by
  have hlog : isLogical m = false := by
    cases hq : isLogical m
    · rfl
    · rw [isLogical_isMethod m hq] at hm
      exact absurd hm (by simp)
  constructor
  · intro n fields hf
    simp [fromJSONF, getField, hf, hm]
  · intro n attr vals
    simp [queryNewF, hlog]

/-- Claim C2 (witness): the amended statement at the concrete method
`"bogus"`. -/
theorem c2_witness :
    fromJSONF 1 (.vObj [("method", .vStr "bogus")]) =
        .error ("Invalid query method: " ++ "bogus")
    ∧ queryNewF 1 "bogus" "a" [] = .ok (.mk "bogus" "a" []) :=
  ⟨(c2_amended "bogus" (by decide)).1 0 [("method", .vStr "bogus")] rfl,
   (c2_amended "bogus" (by decide)).2 0 "a" []⟩

/-- Claim C3 (counterexample): `setAttribute` performs no type validation:
assigning the number `42` to `$id` and the number `7` to `$permissions`
both succeed (storing the ill-typed value) instead of failing with a type
error. -/
theorem c3_counterexample :
    setAttributeF 1 ⟨[]⟩ "$id" (.vInt 42) = .ok ⟨[("$id", .vInt 42)]⟩
    ∧ setAttributeF 1 ⟨[]⟩ "$permissions" (.vInt 7) = .ok ⟨[("$permissions", .vInt 7)]⟩ :=
  ⟨rfl, rfl⟩

/-- Claim C3 (amended): the `$id`-must-be-a-string and
`$permissions`-must-be-an-array type errors are raised on construction
(`replace`) only; `setAttribute` never validates these keys and stores any
(normalised) value. -/
theorem c3_amended :
    (∀ n v, isNullish v = false → isStringV v = false →
        makeF (n + 2) [("$id", v)] = .error "$id must be of type string")
    ∧ (∀ n v, isNullish v = false → isArrV v = false →
        makeF (n + 2) [("$permissions", v)] = .error "$permissions must be an array")
    ∧ (∀ n (d : Document) (z : Int),
        setAttributeF (n + 1) d "$id" (.vInt z) = .ok ⟨setKey d.data "$id" (.vInt z)⟩)
    ∧ (∀ n (d : Document) (z : Int),
        setAttributeF (n + 1) d "$permissions" (.vInt z) =
          .ok ⟨setKey d.data "$permissions" (.vInt z)⟩) := by
  refine ⟨?_, ?_, ?_, ?_⟩
  · intro n v hv hs
    cases v <;> simp_all [makeF, replaceF, isNullish, isStringV]
  · intro n v hv hs
    cases v <;> simp_all [makeF, replaceF, isNullish, isArrV]
  · intro n d z
    simp [setAttributeF, prepF, Except.map]
  · intro n d z
    simp [setAttributeF, prepF, Except.map]

/-- Claim C3 (witness): the amended statement at concrete inputs. -/
theorem c3_witness :
    makeF 2 [("$id", .vBool true)] = .error "$id must be of type string"
    ∧ setAttributeF 1 ⟨[]⟩ "$id" (.vInt 5) = .ok ⟨setKey [] "$id" (.vInt 5)⟩ :=
  ⟨c3_amended.1 0 (.vBool true) rfl rfl, c3_amended.2.2.1 0 ⟨[]⟩ 5⟩

/-- Claim C4 (counterexample): reads against a collection that was never
created do not fail: `getDocument` succeeds with `null` and
`listDocuments` succeeds with the empty list. -/
theorem c4_counterexample :
    getDocumentF 1 ⟨[]⟩ "users" "x" = .ok none
    ∧ listDocumentsF 1 ⟨[]⟩ "users" [] = .ok [] :=
  ⟨rfl, rfl⟩

/-- Claim C4 (amended): against a collection that was never created, the
write operations `createDocument`, `updateDocument` and `deleteDocument`
fail with the not-found error (leaving the store unchanged — the error is
raised before any mutation), while `getDocument` succeeds with `null` and
`listDocuments` succeeds with `[]` (both reads never mutate the store). -/
theorem c4_amended (s : AdapterState) (coll : String) (h : lookupColl s coll = none) :
    (∀ n doc, createDocumentF n s coll doc = .error (collectionMissing coll))
    ∧ (∀ n doc, updateDocumentF n s coll doc = .error (collectionMissing coll))
    ∧ (∀ id, deleteDocument s coll id = .error (collectionMissing coll))
    ∧ (∀ n id, getDocumentF n s coll id = .ok none)
    ∧ (∀ n qs, listDocumentsF n s coll qs = .ok []) := by
  refine ⟨?_, ?_, ?_, ?_, ?_⟩ <;> intros <;>
    simp [createDocumentF, updateDocumentF, deleteDocument, getDocumentF,
      listDocumentsF, h]

/-- Claim C4 (witness): the amended statement at a concrete empty store. -/
theorem c4_witness :
    createDocumentF 1 ⟨[]⟩ "users" ⟨[]⟩ = .error (collectionMissing "users")
    ∧ deleteDocument ⟨[]⟩ "users" "x" = .error (collectionMissing "users")
    ∧ getDocumentF 1 ⟨[]⟩ "users" "x" = .ok none :=
  ⟨(c4_amended ⟨[]⟩ "users" rfl).1 1 ⟨[]⟩,
   (c4_amended ⟨[]⟩ "users" rfl).2.2.1 "x",
   (c4_amended ⟨[]⟩ "users" rfl).2.2.2.1 1 "x"⟩

theorem strictEq_nullish_ne (x y : Value) (hx : isNullish x = true)
    (hy : isNullish y = false) : strictEq x y = false ∧ strictEq y x = false := by
  cases x <;> cases y <;> simp_all [isNullish, strictEq]

theorem compareDocuments_cons (a b : Document) (attr : String) (dir : Direction)
    (rest : List (String × Direction)) :
    compareDocuments a b ((attr, dir) :: rest) =
      (if strictEq (getAttributeV a attr) (getAttributeV b attr) then
          compareDocuments a b rest
        else if isNullish (getAttributeV a attr) then
          (match dir with | .asc => -1 | .desc => 1)
        else if isNullish (getAttributeV b attr) then
          (match dir with | .asc => 1 | .desc => -1)
        else if jsGtB (getAttributeV a attr) (getAttributeV b attr) then
          (match dir with | .asc => 1 | .desc => -1)
        else if jsLtB (getAttributeV a attr) (getAttributeV b attr) then
          (match dir with | .asc => -1 | .desc => 1)
        else compareDocuments a b rest) := rfl

/-- Claim C6: a null or absent sort-key value is a sentinel minimum before
direction is applied, and direction then flips the sign: between a
document lacking the key (or holding null) and one holding a concrete
value, `compareDocuments` returns `-1` ascending and `1` descending, so
`orderAsc` sorts the missing-value document first and `orderDesc` sorts
it last, from either input order. -/
theorem c6_order_null_sentinel (a b : Document) (k : String)
    (ha : isNullish (getAttributeV a k) = true)
    (hb : isNullish (getAttributeV b k) = false) :
    compareDocuments a b [(k, Direction.asc)] = -1
    ∧ compareDocuments a b [(k, Direction.desc)] = 1
    ∧ (∀ n, applyQueriesF n [a, b] [.mk "orderAsc" k []] = .ok [a, b])
    ∧ (∀ n, applyQueriesF n [b, a] [.mk "orderAsc" k []] = .ok [a, b])
    ∧ (∀ n, applyQueriesF n [a, b] [.mk "orderDesc" k []] = .ok [b, a])
    ∧ (∀ n, applyQueriesF n [b, a] [.mk "orderDesc" k []] = .ok [b, a]) := by
  have hse := strictEq_nullish_ne _ _ ha hb
  have h1 : compareDocuments a b [(k, Direction.asc)] = -1 := by
    rw [compareDocuments_cons, hse.1]
    simp [ha]
  have h2 : compareDocuments b a [(k, Direction.asc)] = 1 := by
    rw [compareDocuments_cons, hse.2]
    simp [ha, hb]
  have h3 : compareDocuments a b [(k, Direction.desc)] = 1 := by
    rw [compareDocuments_cons, hse.1]
    simp [ha]
  have h4 : compareDocuments b a [(k, Direction.desc)] = -1 := by
    rw [compareDocuments_cons, hse.2]
    simp [ha, hb]
  refine ⟨h1, h3, ?_, ?_, ?_, ?_⟩ <;> intro n <;>
    simp [applyQueriesF, partitionQueries, partitionStep, emptyPartition,
      sortByCmp, insertSorted, h1, h2, h3, h4]

/-- Claim C6 (witness): concrete documents, one lacking the sort key. -/
theorem c6_witness :
    compareDocuments ⟨[("x", .vInt 9)]⟩ ⟨[("age", .vInt 3), ("x", .vInt 1)]⟩
        [("age", Direction.asc)] = -1
    ∧ applyQueriesF 3 [⟨[("x", .vInt 9)]⟩, ⟨[("age", .vInt 3), ("x", .vInt 1)]⟩]
        [.mk "orderDesc" "age" []] =
        .ok [⟨[("age", .vInt 3), ("x", .vInt 1)]⟩, ⟨[("x", .vInt 9)]⟩] := by
  have h := c6_order_null_sentinel ⟨[("x", .vInt 9)]⟩ ⟨[("age", .vInt 3), ("x", .vInt 1)]⟩
    "age" rfl rfl
  exact ⟨h.1, h.2.2.2.2.1 3⟩

/-- Claim C9: `contains` holds iff an array attribute contains every
operand (by comparator equality) or a scalar attribute equals some
operand; concretely, `contains("tags", ["a","b"])` run through
`listDocuments` matches the stored document whose tags are
`["a","b","c"]` and excludes the one whose tags are `["a"]`. -/
theorem c9_contains :
    (∀ (d : Document) (attr : String) (ops : List Value),
      evaluate d (.mk "contains" attr (ops.map QVal.val)) =
        (match getAttributeV d attr with
         | .vArr items => ops.all (fun c => items.any (fun item => compareValues item c == 0))
         | v => ops.any (fun c => compareValues v c == 0)))
    ∧ listDocumentsF 20
        ⟨[("c", [("d1", ⟨[("$id", .vStr "d1"),
                          ("tags", .vArr [.vStr "a", .vStr "b", .vStr "c"])]⟩),
                 ("d2", ⟨[("$id", .vStr "d2"), ("tags", .vArr [.vStr "a"])]⟩)])]⟩
        "c" [.mk "contains" "tags" [.val (.vStr "a"), .val (.vStr "b")]] =
        .ok [⟨[("$id", .vStr "d1"), ("tags", .vArr [.vStr "a", .vStr "b", .vStr "c"])]⟩]
    ∧ evaluate ⟨[("tags", .vArr [.vStr "a", .vStr "b", .vStr "c"])]⟩
        (.mk "contains" "tags" [.val (.vStr "a"), .val (.vStr "b")]) = true
    ∧ evaluate ⟨[("tags", .vArr [.vStr "a"])]⟩
        (.mk "contains" "tags" [.val (.vStr "a"), .val (.vStr "b")]) = false := by
  refine ⟨?_, rfl, rfl, rfl⟩
  intro d attr ops
  have hmap : List.map (coerceQV ∘ QVal.val) ops = ops := by
    rw [show (coerceQV ∘ QVal.val) = id from rfl, List.map_id]
  simp only [evaluate]
  norm_num
  rw [hmap]
  cases hv : getAttributeV d attr <;> simp [containsValueB]

theorem setDocIn_find (docs : List (String × Document)) (id : String) (c : Document) :
    (setDocIn docs id c).find? (fun p => p.1 == id) = some (id, c) := by
  unfold setDocIn
  by_cases h : docs.any (fun p => p.1 == id) = true
  · rw [if_pos h]
    induction docs with
    | nil => simp at h
    | cons p ps ih =>
      by_cases hp : (p.1 == id) = true
      · simp [List.find?, hp]
      · have hps : ps.any (fun p => p.1 == id) = true := by
          rcases (List.any_eq_true).mp h with ⟨q, hq, hq2⟩
          rcases List.mem_cons.mp hq with hq3 | hq3
          · subst hq3; exact absurd hq2 hp
          · exact (List.any_eq_true).mpr ⟨q, hq3, hq2⟩
        simpa [List.find?, hp] using ih hps
  · rw [if_neg h]
    induction docs with
    | nil => simp [List.find?]
    | cons p ps ih =>
      have hp : (p.1 == id) = false := by
        by_contra hc
        exact h (by simp [List.any_cons, eq_true_of_ne_false (fun hf => hc hf)])
      have hps : ¬ ps.any (fun p => p.1 == id) = true := by
        intro hc
        exact h (by simp [List.any_cons, hc])
      simpa [List.find?, hp] using ih hps

/-- Claim C10: at the adapter, `createDocument` and `updateDocument` are
the same operation: with the target collection present, creating a
document whose id is already stored raises no duplicate error — it
succeeds, returns the clone, and silently replaces the stored entry with
the clone. -/
theorem c10_create_upsert (n : Nat) (s : AdapterState) (coll : String)
    (doc c : Document) (docs : List (String × Document))
    (hcoll : lookupColl s coll = some docs)
    (hexist : docs.any (fun p => p.1 == getId doc) = true)
    (hclone : cloneDoc n doc = .ok c) :
    createDocumentF n s coll doc = updateDocumentF n s coll doc
    ∧ createDocumentF n s coll doc =
        .ok (c, setColl s coll (setDocIn docs (getId doc) c))
    ∧ (setDocIn docs (getId doc) c).find? (fun p => p.1 == getId doc) =
        some (getId doc, c) := by
  refine ⟨rfl, ?_, setDocIn_find docs (getId doc) c⟩
  simp only [createDocumentF, hcoll, hclone]
  rfl

/-- Claim C10 (witness): a store where id `d1` already exists. -/
theorem c10_witness :
    createDocumentF 5 ⟨[("c", [("d1", ⟨[("$id", .vStr "d1")]⟩)])]⟩ "c"
        ⟨[("$id", .vStr "d1"), ("x", .vInt 1)]⟩ =
      .ok (⟨[("$id", .vStr "d1"), ("x", .vInt 1)]⟩,
        setColl ⟨[("c", [("d1", ⟨[("$id", .vStr "d1")]⟩)])]⟩ "c"
          (setDocIn [("d1", ⟨[("$id", .vStr "d1")]⟩)] "d1"
            ⟨[("$id", .vStr "d1"), ("x", .vInt 1)]⟩)) :=
  (c10_create_upsert 5 ⟨[("c", [("d1", ⟨[("$id", .vStr "d1")]⟩)])]⟩ "c"
    ⟨[("$id", .vStr "d1"), ("x", .vInt 1)]⟩ ⟨[("$id", .vStr "d1"), ("x", .vInt 1)]⟩
    [("d1", ⟨[("$id", .vStr "d1")]⟩)] rfl rfl rfl).2.1

theorem isPagB_false_parts (m attr : String) (vals : List QVal)
    (h : isPagB (.mk m attr vals) = false) :
    (m == "limit") = false ∧ (m == "offset") = false := by
  simp only [isPagB, QueryT.method] at h
  exact Bool.or_eq_false_iff.mp h

theorem partitionStep_pag (p : Partition) (q : QueryT) (h : isPagB q = true) :
    resetPag (partitionStep p q) = resetPag p := by
  rcases q with ⟨m, attr, vals⟩
  rcases (Bool.or_eq_true _ _).mp h with h1 | h1
  · simp only [QueryT.method] at h1
    simp only [partitionStep, h1, if_true]
    rcases vals with _ | ⟨qv, rest⟩
    · rfl
    · rcases qv with v | q2
      · rcases v <;> rfl
      · rfl
  · simp only [QueryT.method] at h1
    by_cases h2 : (m == "limit") = true
    · simp only [partitionStep, h2, if_true]
      rcases vals with _ | ⟨qv, rest⟩
      · rfl
      · rcases qv with v | q2
        · rcases v <;> rfl
        · rfl
    · have h2f : (m == "limit") = false := by
        cases hq : (m == "limit")
        · rfl
        · exact absurd hq h2
      simp only [partitionStep, h2f, Bool.false_eq_true, if_false, h1, if_true]
      rcases vals with _ | ⟨qv, rest⟩
      · rfl
      · rcases qv with v | q2
        · rcases v <;> rfl
        · rfl

theorem partitionStep_nonpag (p : Partition) (q : QueryT) (h : isPagB q = false) :
    partitionStep (resetPag p) q = resetPag (partitionStep p q) := by
  rcases q with ⟨m, attr, vals⟩
  have h1 := (isPagB_false_parts m attr vals h).1
  have h2 := (isPagB_false_parts m attr vals h).2
  simp only [partitionStep, h1, h2, Bool.false_eq_true, if_false]
  split_ifs <;> rfl

theorem partitionFold_strip : ∀ (qs : List QueryT) (p : Partition),
    List.foldl partitionStep (resetPag p) (stripPag qs) =
      resetPag (List.foldl partitionStep p qs) := by
  intro qs
  induction qs with
  | nil => intro p; rfl
  | cons q rest ih =>
    intro p
    by_cases h : isPagB q = true
    · have hs : stripPag (q :: rest) = stripPag rest := by
        simp [stripPag, List.filter, h]
      rw [hs, List.foldl_cons]
      rw [show resetPag p = resetPag (partitionStep p q) from (partitionStep_pag p q h).symm]
      exact ih (partitionStep p q)
    · have hb : isPagB q = false := by
        cases hq : isPagB q
        · rfl
        · exact absurd hq h
      have hs : stripPag (q :: rest) = q :: stripPag rest := by
        simp [stripPag, List.filter, hb]
      rw [hs, List.foldl_cons, List.foldl_cons]
      rw [partitionStep_nonpag p q hb]
      exact ih (partitionStep p q)

theorem partitionQueries_strip (qs : List QueryT) :
    partitionQueries (stripPag qs) = resetPag (partitionQueries qs) := by
  have h := partitionFold_strip qs emptyPartition
  simpa [partitionQueries, emptyPartition, resetPag] using h

theorem jsSliceFrom_ofNat (l : List Document) (k : Nat) :
    jsSliceFrom l (k : Int) = l.drop k := by
  have h : ¬ ((k : Int) < 0) := by omega
  simp [jsSliceFrom, h]

theorem jsSliceTo_ofNat (l : List Document) (k : Nat) :
    jsSliceTo l (k : Int) = l.take k := by
  have h : ¬ ((k : Int) < 0) := by omega
  simp [jsSliceTo, h]

theorem partitionStep_nonpag_same (p : Partition) (q : QueryT) (h : isPagB q = false) :
    (partitionStep p q).offset = p.offset ∧ (partitionStep p q).limit = p.limit := by
  rcases q with ⟨m, attr, vals⟩
  have h1 := (isPagB_false_parts m attr vals h).1
  have h2 := (isPagB_false_parts m attr vals h).2
  simp only [partitionStep, h1, h2, Bool.false_eq_true, if_false]
  split_ifs <;> exact ⟨rfl, rfl⟩

theorem partitionFold_nopag : ∀ (qs : List QueryT) (p : Partition),
    (∀ q ∈ qs, isPagB q = false) →
    (List.foldl partitionStep p qs).offset = p.offset ∧
      (List.foldl partitionStep p qs).limit = p.limit := by
  intro qs
  induction qs with
  | nil => intro p _; exact ⟨rfl, rfl⟩
  | cons q rest ih =>
    intro p hall
    have hq := hall q (List.mem_cons_self q rest)
    have hstep := partitionStep_nonpag_same p q hq
    rw [List.foldl_cons]
    have hrest := ih (partitionStep p q) (fun x hx => hall x (List.mem_cons_of_mem q hx))
    exact ⟨hrest.1.trans hstep.1, hrest.2.trans hstep.2⟩

/-- Claim C8: with an effective `offset(k)` and `limit(m)` (`k`, `m`
naturals) and no projection, the evaluator returns exactly the slice
`[k, k+m)` of the filtered/ordered result sequence: the result equals the
pagination-free result with its `k` leading elements dropped and then
truncated to `m` elements; it is empty when `k` reaches the result size;
and without any `offset`/`limit` query the partition defaults are offset
`0` and no limit. -/
theorem c8_pagination (n : Nat) (docs : List Document) (qs : List QueryT) (k m : Nat)
    (ho : (partitionQueries qs).offset = (k : Int))
    (hl : (partitionQueries qs).limit = some (m : Int))
    (hs : (partitionQueries qs).sel = none) :
    applyQueriesF n docs qs =
      (applyQueriesF n docs (stripPag qs)).map (fun r => (r.drop k).take m)
    ∧ (∀ r, applyQueriesF n docs (stripPag qs) = .ok r → r.length ≤ k →
        applyQueriesF n docs qs = .ok [])
    ∧ (∀ qs' : List QueryT, (∀ q ∈ qs', isPagB q = false) →
        (partitionQueries qs').offset = 0 ∧ (partitionQueries qs').limit = none) := by
  have hstrip := partitionQueries_strip qs
  have hmain : applyQueriesF n docs qs =
      (applyQueriesF n docs (stripPag qs)).map (fun r => (r.drop k).take m) := by
    simp only [applyQueriesF, hstrip, resetPag]
    rw [ho, hl, hs]
    simp only []
    by_cases hk : k = 0
    · subst hk
      simp [jsSliceTo_ofNat, Except.map]
    · have hkne : ((k : Int) == 0) = false := by
        simp [Int.natCast_eq_zero, hk]
      simp [hkne, jsSliceFrom_ofNat, jsSliceTo_ofNat, Except.map]
  refine ⟨hmain, ?_, ?_⟩
  · intro r hr hlen
    rw [hmain, hr]
    simp [Except.map, List.drop_eq_nil_of_le hlen]
  · intro qs' hall
    exact partitionFold_nopag qs' emptyPartition hall

/-- Claim C8 (witness): a concrete filtered, ordered, offset and limited
query list. -/
theorem c8_witness :
    applyQueriesF 3
      [⟨[("a", .vInt 1)]⟩, ⟨[("a", .vInt 2)]⟩, ⟨[("a", .vInt 3)]⟩]
      [.mk "greaterThan" "a" [.val (.vInt 0)], .mk "offset" "" [.val (.vInt 1)],
       .mk "limit" "" [.val (.vInt 1)]] =
      (applyQueriesF 3
        [⟨[("a", .vInt 1)]⟩, ⟨[("a", .vInt 2)]⟩, ⟨[("a", .vInt 3)]⟩]
        (stripPag [.mk "greaterThan" "a" [.val (.vInt 0)], .mk "offset" "" [.val (.vInt 1)],
          .mk "limit" "" [.val (.vInt 1)]])).map (fun r => (r.drop 1).take 1) :=
  (c8_pagination 3
    [⟨[("a", .vInt 1)]⟩, ⟨[("a", .vInt 2)]⟩, ⟨[("a", .vInt 3)]⟩]
    [.mk "greaterThan" "a" [.val (.vInt 0)], .mk "offset" "" [.val (.vInt 1)],
     .mk "limit" "" [.val (.vInt 1)]] 1 1 rfl rfl rfl).1

/-- Claim C7 (code bug): the clone/export round trip is not the identity on
`toJSON` output.  For the document built from
`{a: Document{arr: [Document{$id:"x"}]}}`, `toJSON` exports the inner
document to the plain object `{$id:"x"}` (the export unwraps Documents at
top level and directly inside arrays), but `clone()` re-normalises that
plain object back into a Document *instance* inside a plain nested map —
which a second `toJSON` does not unwrap (it never recurses into plain
objects).  Hence `doc.clone().toJSON()` holds a Document instance at
`a.arr[0]` where `doc.toJSON()` holds a plain object: the two are not
deep-equal. -/
theorem c7_clone_toJSON_diverges :
    makeF 20 [("a", .vDoc [("arr", .vArr [.vDoc [("$id", .vStr "x")]])])] =
      .ok [("a", .vDoc [("arr", .vArr [.vDoc [("$id", .vStr "x")]])])]
    ∧ cloneF 20 [("a", .vDoc [("arr", .vArr [.vDoc [("$id", .vStr "x")]])])] =
      .ok [("a", .vObj [("arr", .vArr [.vDoc [("$id", .vStr "x")]])])]
    ∧ exportFields [("a", .vDoc [("arr", .vArr [.vDoc [("$id", .vStr "x")]])])] =
      [("a", .vObj [("arr", .vArr [.vObj [("$id", .vStr "x")]])])]
    ∧ exportFields [("a", .vObj [("arr", .vArr [.vDoc [("$id", .vStr "x")]])])] =
      [("a", .vObj [("arr", .vArr [.vDoc [("$id", .vStr "x")]])])]
    ∧ exportFields [("a", .vObj [("arr", .vArr [.vDoc [("$id", .vStr "x")]])])] ≠
      exportFields [("a", .vDoc [("arr", .vArr [.vDoc [("$id", .vStr "x")]])])] := by
  refine ⟨rfl, rfl, rfl, rfl, ?_⟩
  simp [exportFields, exportTop, exportItems]

theorem toJSONQ_method (m a : String) (vals : List QVal) :
    getField (toJSONQ (.mk m a vals)) "method" = some (.vStr m) := by
  by_cases h : (a == "") = true
  · simp [toJSONQ, getField, getKey, List.find?, h]
  · have hf : (a == "") = false := by
      cases hq : (a == "")
      · rfl
      · exact absurd hq h
    simp [toJSONQ, getField, getKey, List.find?, hf]

theorem toJSONQ_attr (m a : String) (vals : List QVal) :
    getField (toJSONQ (.mk m a vals)) "attribute" =
      (if (a == "") = true then none else some (.vStr a)) := by
  by_cases h : (a == "") = true
  · simp [toJSONQ, getField, getKey, List.find?, h]
  · have hf : (a == "") = false := by
      cases hq : (a == "")
      · rfl
      · exact absurd hq h
    simp [toJSONQ, getField, getKey, List.find?, hf]

theorem toJSONQ_values (m a : String) (vals : List QVal) :
    getField (toJSONQ (.mk m a vals)) "values" =
      some (.vArr (if isLogical m then toJSONVals vals else toJSONPlain vals)) := by
  by_cases h : (a == "") = true
  · simp [toJSONQ, getField, getKey, List.find?, h]
  · have hf : (a == "") = false := by
      cases hq : (a == "")
      · rfl
      · exact absurd hq h
    simp [toJSONQ, getField, getKey, List.find?, hf]

theorem reduceQValsP_map : ∀ vals : List QVal,
    reduceQValsP vals =
      vals.map (fun qv => match qv with
        | .val v => .val (reduceTop v)
        | x => x)
  | [] => rfl
  | .val v :: rest => by simp [reduceQValsP, reduceQValsP_map rest]
  | .query q :: rest => by simp [reduceQValsP, reduceQValsP_map rest]

mutual
theorem wf_reduce_cwf : ∀ q : QueryT, WFQb q = true → CWFb (reduceQ q) = true
  | .mk m a vals => by
    intro h
    simp only [WFQb, Bool.and_eq_true] at h
    by_cases hl : isLogical m = true
    · simp only [hl, if_true] at h
      simp only [reduceQ, hl, if_true, CWFb]
      exact wfL_reduce_cwf vals h.2
    · have hlf : isLogical m = false := by
        cases hq : isLogical m
        · rfl
        · exact absurd hq hl
      simp only [reduceQ, hlf, Bool.false_eq_true, if_false, CWFb]

theorem wfL_reduce_cwf : ∀ vals : List QVal,
    wfLogicalVals vals = true → cwfVals (reduceQValsL vals) = true
  | [] => by intro h; rfl
  | .query q :: rest => by
    intro h
    simp only [wfLogicalVals, Bool.and_eq_true] at h
    simp only [reduceQValsL, cwfVals, Bool.and_eq_true]
    exact ⟨wf_reduce_cwf q h.1, wfL_reduce_cwf rest h.2⟩
  | .val v :: rest => by
    intro h
    simp [wfLogicalVals] at h
end

theorem toJSONPlain_wf : ∀ vals : List QVal, wfPlainVals vals = true →
    (toJSONPlain vals).map QVal.val = reduceQValsP vals
  | [] => by intro h; rfl
  | .val v :: rest => by
    intro h
    simp only [wfPlainVals, Bool.and_eq_true] at h
    simp [toJSONPlain, reduceQValsP, toJSONPlain_wf rest h.2]
  | .query q :: rest => by
    intro h
    simp [wfPlainVals] at h

theorem reduceQ_method (q : QueryT) : (reduceQ q).method = q.method := by
  rcases q with ⟨m, a, vals⟩
  simp [reduceQ, QueryT.method]

theorem reduceQ_attr (q : QueryT) : (reduceQ q).attr = q.attr := by
  rcases q with ⟨m, a, vals⟩
  simp [reduceQ, QueryT.attr]

theorem except_bind_congr {α β : Type} (x x' : Except String α)
    (f f' : α → Except String β)
    (hne : (x >>= f) ≠ Except.error fuelErr)
    (hx : x ≠ Except.error fuelErr → x' = x)
    (hf : ∀ a, x = .ok a → f a ≠ Except.error fuelErr → f' a = f a) :
    (x' >>= f') = (x >>= f) := by
  cases x with
  | error e =>
    have he : ((Except.error e : Except String α) >>= f) = Except.error e := rfl
    rw [he] at hne ⊢
    have hef : e ≠ fuelErr := fun hc => hne (by rw [hc])
    have hx' : x' = .error e := hx (fun hc => by injection hc with h2; exact hef h2)
    rw [hx']
    rfl
  | ok a =>
    have hb : ((Except.ok a : Except String α) >>= f) = f a := rfl
    rw [hb] at hne ⊢
    have hx' : x' = .ok a := hx (fun hc => Except.noConfusion hc)
    rw [hx']
    have : ((Except.ok a : Except String α) >>= f') = f' a := rfl
    rw [this]
    exact hf a rfl hne

theorem except_map_ne {α β : Type} (x : Except String α) (g : α → β)
    (h : x.map g ≠ Except.error fuelErr) : x ≠ Except.error fuelErr := by
  cases x with
  | error e => intro hc; injection hc with hc2; exact h (by rw [hc2]; rfl)
  | ok a => exact fun hc => Except.noConfusion hc

set_option maxHeartbeats 1000000

theorem qfuel_step : ∀ n : Nat,
    (∀ v, fromJSONF n v ≠ .error fuelErr → fromJSONF (n + 1) v = fromJSONF n v)
    ∧ (∀ l, fromJSONListF n l ≠ .error fuelErr → fromJSONListF (n + 1) l = fromJSONListF n l)
    ∧ (∀ m a vals, queryNewF n m a vals ≠ .error fuelErr →
        queryNewF (n + 1) m a vals = queryNewF n m a vals)
    ∧ (∀ vals, ctorValsF n vals ≠ .error fuelErr → ctorValsF (n + 1) vals = ctorValsF n vals)
    ∧ (∀ q, qCloneF n q ≠ .error fuelErr → qCloneF (n + 1) q = qCloneF n q) := by
  intro n
  induction n with
  | zero =>
    refine ⟨?_, ?_, ?_, ?_, ?_⟩
    · intro v hv; exact absurd rfl hv
    · intro l hl; exact absurd rfl hl
    · intro m a vals hq; exact absurd rfl hq
    · intro vals hv; exact absurd rfl hv
    · intro q hq; exact absurd rfl hq
  | succ n ih =>
    obtain ⟨ihF, ihL, ihN, ihC, ihQ⟩ := ih
    refine ⟨?_, ?_, ?_, ?_, ?_⟩
    · intro v hv
      show fromJSONF (n + 1 + 1) v = fromJSONF (n + 1) v
      simp only [fromJSONF] at hv ⊢
      cases hm : getField v "method" with
      | none => rfl
      | some mval =>
        rw [hm] at hv
        cases mval with
        | vStr m =>
          by_cases hmm : isMethod m = true
          · simp only [hmm, if_true] at hv ⊢
            cases hvv : getField v "values" with
            | none =>
              rw [hvv] at hv
              simp only []
              exact ihN m _ [] hv
            | some vv =>
              rw [hvv] at hv
              cases vv with
              | vArr entries =>
                by_cases hl : isLogical m = true
                · simp only [hl, if_true] at hv ⊢
                  refine except_bind_congr _ _ _ _ hv (ihL entries) ?_
                  intro qsL _ hq
                  exact ihN m _ (qsL.map QVal.query) hq
                · have hlf : isLogical m = false := by
                    cases hq : isLogical m
                    · rfl
                    · exact absurd hq hl
                  simp only [hlf, Bool.false_eq_true, if_false] at hv ⊢
                  exact ihN m _ (entries.map QVal.val) hv
              | vNull => exact ihN m _ [] hv
              | vUndefined => exact ihN m _ [] hv
              | vBool b => rfl
              | vInt z => rfl
              | vStr s => rfl
              | vObj fs => rfl
              | vDoc fs => rfl
          · have hmf : isMethod m = false := by
              cases hq : isMethod m
              · rfl
              · exact absurd hq hmm
            simp only [hmf, Bool.false_eq_true, if_false]
        | vUndefined => rfl
        | vNull => rfl
        | vBool b => rfl
        | vInt z => rfl
        | vArr l => rfl
        | vObj fs => rfl
        | vDoc fs => rfl
    · intro l hl
      show fromJSONListF (n + 1 + 1) l = fromJSONListF (n + 1) l
      cases l with
      | nil => rfl
      | cons v rest =>
        simp only [fromJSONListF] at hl ⊢
        refine except_bind_congr _ _ _ _ hl (ihF v) ?_
        intro q hq hrest
        refine except_bind_congr _ _ _ _ hrest (ihL rest) ?_
        intro qsL _ _
        rfl
    · intro m a vals hq
      show queryNewF (n + 1 + 1) m a vals = queryNewF (n + 1) m a vals
      simp only [queryNewF] at hq ⊢
      by_cases hl : isLogical m = true
      · simp only [hl, if_true] at hq ⊢
        refine except_bind_congr _ _ _ _ hq (ihC vals) ?_
        intro ws _ _
        rfl
      · have hlf : isLogical m = false := by
          cases hx : isLogical m
          · rfl
          · exact absurd hx hl
        simp only [hlf, Bool.false_eq_true, if_false]
    · intro vals hv
      show ctorValsF (n + 1 + 1) vals = ctorValsF (n + 1) vals
      cases vals with
      | nil => rfl
      | cons qv rest =>
        simp only [ctorValsF] at hv ⊢
        cases qv with
        | query q =>
          dsimp only at hv ⊢
          refine except_bind_congr _ _ _ _ hv ?_ ?_
          · intro hw
            have hq : qCloneF n q ≠ .error fuelErr := except_map_ne _ _ hw
            rw [ihQ q hq]
          · intro w _ hrest
            refine except_bind_congr _ _ _ _ hrest (ihC rest) ?_
            intro ws _ _
            rfl
        | val v =>
          dsimp only at hv ⊢
          by_cases ho : isObjectLike v = true
          · simp only [ho, if_true] at hv ⊢
            refine except_bind_congr _ _ _ _ hv ?_ ?_
            · intro hw
              have hq : fromJSONF n v ≠ .error fuelErr := except_map_ne _ _ hw
              rw [ihF v hq]
            · intro w _ hrest
              refine except_bind_congr _ _ _ _ hrest (ihC rest) ?_
              intro ws _ _
              rfl
          · have hof : isObjectLike v = false := by
              cases hx : isObjectLike v
              · rfl
              · exact absurd hx ho
            simp only [hof, Bool.false_eq_true, if_false]
            rfl
    · intro q hq
      rcases q with ⟨m, a, vals⟩
      show qCloneF (n + 1 + 1) (.mk m a vals) = qCloneF (n + 1) (.mk m a vals)
      simp only [qCloneF] at hq ⊢
      exact ihN m a vals hq

theorem except_ok_lift {α β : Type} (f : Nat → α → Except String β)
    (hstep : ∀ n x, f n x ≠ .error fuelErr → f (n + 1) x = f n x) :
    ∀ n n' : Nat, n ≤ n' → ∀ x r, f n x = .ok r → f n' x = .ok r := by
  intro n n' h
  induction h with
  | refl => exact fun x r hr => hr
  | step h2 ih =>
    intro x r hr
    have h3 := ih x r hr
    rw [hstep _ x (by rw [h3]; exact fun hc => Except.noConfusion hc)]
    exact h3

theorem fromJSONF_lift {n n' : Nat} (h : n ≤ n') {v : Value} {q : QueryT}
    (hq : fromJSONF n v = .ok q) : fromJSONF n' v = .ok q :=
  except_ok_lift fromJSONF (fun k x => (qfuel_step k).1 x) n n' h v q hq

theorem fromJSONListF_lift {n n' : Nat} (h : n ≤ n') {l : List Value} {qs : List QueryT}
    (hq : fromJSONListF n l = .ok qs) : fromJSONListF n' l = .ok qs :=
  except_ok_lift fromJSONListF (fun k x => (qfuel_step k).2.1 x) n n' h l qs hq

theorem queryNewF_lift {n n' : Nat} (h : n ≤ n') {m a : String} {vals : List QVal}
    {q : QueryT} (hq : queryNewF n m a vals = .ok q) : queryNewF n' m a vals = .ok q :=
  except_ok_lift (fun k t => queryNewF k t.1 t.2.1 t.2.2)
    (fun k t hx => (qfuel_step k).2.2.1 t.1 t.2.1 t.2.2 hx) n n' h (m, a, vals) q hq

theorem ctorValsF_lift {n n' : Nat} (h : n ≤ n') {vals ws : List QVal}
    (hq : ctorValsF n vals = .ok ws) : ctorValsF n' vals = .ok ws :=
  except_ok_lift ctorValsF (fun k x => (qfuel_step k).2.2.2.1 x) n n' h vals ws hq

theorem qCloneF_lift {n n' : Nat} (h : n ≤ n') {q r : QueryT}
    (hq : qCloneF n q = .ok r) : qCloneF n' q = .ok r :=
  except_ok_lift qCloneF (fun k x => (qfuel_step k).2.2.2.2 x) n n' h q r hq

mutual
theorem clone_exists : ∀ q : QueryT, CWFb q = true → ∃ n, qCloneF n q = .ok q
  | .mk m a vals => by
    intro h
    by_cases hl : isLogical m = true
    · simp only [CWFb, hl, if_true] at h
      obtain ⟨n0, hn0⟩ := ctorVals_exists vals h
      refine ⟨n0 + 2, ?_⟩
      show queryNewF (n0 + 1) m a vals = .ok (.mk m a vals)
      simp only [queryNewF, hl, if_true]
      rw [hn0]
      rfl
    · have hlf : isLogical m = false := by
        cases hx : isLogical m
        · rfl
        · exact absurd hx hl
      exact ⟨2, by simp [qCloneF, queryNewF, hlf]⟩

theorem ctorVals_exists : ∀ vals : List QVal, cwfVals vals = true →
    ∃ n, ctorValsF n vals = .ok vals
  | [] => fun _ => ⟨1, rfl⟩
  | .query q :: rest => by
    intro h
    simp only [cwfVals, Bool.and_eq_true] at h
    obtain ⟨n1, h1⟩ := clone_exists q h.1
    obtain ⟨n2, h2⟩ := ctorVals_exists rest h.2
    refine ⟨max n1 n2 + 1, ?_⟩
    have h1b := qCloneF_lift (le_max_left n1 n2) h1
    have h2b := ctorValsF_lift (le_max_right n1 n2) h2
    show ctorValsF (max n1 n2 + 1) (.query q :: rest) = _
    simp only [ctorValsF]
    rw [h1b, h2b]
    rfl
  | .val v :: rest => by
    intro h
    simp [cwfVals] at h
end

theorem fromJSONF_good_logical (K : Nat) (m a : String) (vals : List QVal)
    (hm : isMethod m = true) (hl : isLogical m = true) :
    fromJSONF (K + 1) (toJSONQ (.mk m a vals)) =
      (do
        let qsL ← fromJSONListF K (toJSONVals vals)
        queryNewF K m a (qsL.map QVal.query)) := by
  by_cases ha : (a == "") = true
  · have h0 : a = "" := eq_of_beq ha
    subst h0
    simp [fromJSONF, toJSONQ_method, toJSONQ_values, toJSONQ_attr, hm, hl]
  · simp [fromJSONF, toJSONQ_method, toJSONQ_values, toJSONQ_attr, hm, hl, ha]

theorem fromJSONF_good_plain (K : Nat) (m a : String) (vals : List QVal)
    (hm : isMethod m = true) (hl : isLogical m = false) :
    fromJSONF (K + 1) (toJSONQ (.mk m a vals)) =
      queryNewF K m a ((toJSONPlain vals).map QVal.val) := by
  by_cases ha : (a == "") = true
  · have h0 : a = "" := eq_of_beq ha
    subst h0
    simp [fromJSONF, toJSONQ_method, toJSONQ_values, toJSONQ_attr, hm, hl]
  · simp [fromJSONF, toJSONQ_method, toJSONQ_values, toJSONQ_attr, hm, hl, ha]

mutual
theorem rt_exists : ∀ q : QueryT, WFQb q = true →
    ∃ n, fromJSONF n (toJSONQ q) = .ok (reduceQ q)
  | .mk m a vals => by
    intro h
    simp only [WFQb, Bool.and_eq_true] at h
    obtain ⟨hm, hv⟩ := h
    by_cases hl : isLogical m = true
    · rw [if_pos hl] at hv
      obtain ⟨n1, qsL, h1, hmap⟩ := rtList_exists vals hv
      obtain ⟨n2, h2⟩ := ctorVals_exists (reduceQValsL vals) (wfL_reduce_cwf vals hv)
      refine ⟨max n1 (n2 + 1) + 1, ?_⟩
      rw [fromJSONF_good_logical (max n1 (n2 + 1)) m a vals hm hl]
      rw [fromJSONListF_lift (le_max_left n1 (n2 + 1)) h1]
      have hred : ((Except.ok qsL : Except String (List QueryT)) >>=
          fun qsL => queryNewF (max n1 (n2 + 1)) m a (qsL.map QVal.query)) =
          queryNewF (max n1 (n2 + 1)) m a (qsL.map QVal.query) := rfl
      rw [hred, hmap]
      have hqn : queryNewF (n2 + 1) m a (reduceQValsL vals) =
          .ok (.mk m a (reduceQValsL vals)) := by
        simp only [queryNewF, hl, if_true]
        rw [h2]
        rfl
      rw [queryNewF_lift (le_max_right n1 (n2 + 1)) hqn]
      simp [reduceQ, hl]
    · have hlf : isLogical m = false := by
        cases hx : isLogical m
        · rfl
        · exact absurd hx hl
      rw [if_neg (by simp [hlf])] at hv
      refine ⟨2, ?_⟩
      rw [fromJSONF_good_plain 1 m a vals hm hlf]
      rw [toJSONPlain_wf vals hv]
      simp [queryNewF, hlf, reduceQ]

theorem rtList_exists : ∀ vals : List QVal, wfLogicalVals vals = true →
    ∃ n qsL, fromJSONListF n (toJSONVals vals) = .ok qsL ∧
      qsL.map QVal.query = reduceQValsL vals
  | [] => fun _ => ⟨1, [], rfl, rfl⟩
  | .query q :: rest => by
    intro h
    simp only [wfLogicalVals, Bool.and_eq_true] at h
    obtain ⟨n1, h1⟩ := rt_exists q h.1
    obtain ⟨n2, qsL, h2, h3⟩ := rtList_exists rest h.2
    refine ⟨max n1 n2 + 1, reduceQ q :: qsL, ?_, ?_⟩
    · show fromJSONListF (max n1 n2 + 1) (toJSONQ q :: toJSONVals rest) = _
      simp only [fromJSONListF]
      rw [fromJSONF_lift (le_max_left n1 n2) h1,
        fromJSONListF_lift (le_max_right n1 n2) h2]
      rfl
    · simp [reduceQValsL, h3]
  | .val v :: rest => by
    intro h
    simp [wfLogicalVals] at h
end

/-- Claim C5: serialisation round trip.  For every constructible query
(recognised method, logical methods holding nested constructible queries,
other methods holding JSON-safe or Document operands), parsing the
serialised form back (with sufficient fuel, which exists; any sufficient
fuel yields the same result) reproduces the query exactly, up to the
serialisation's documented reduction of each top-level Document operand of
a non-logical method to its `$id` string: method and attribute are
reproduced verbatim, and recursively so for logical queries. -/
theorem c5_parse_toString_roundtrip (q : QueryT) (h : WFQb q = true) :
    (∃ n, fromJSONF n (toJSONQ q) = .ok (reduceQ q))
    ∧ (∀ n r, fromJSONF n (toJSONQ q) = .ok r → r = reduceQ q)
    ∧ (reduceQ q).method = q.method
    ∧ (reduceQ q).attr = q.attr
    ∧ (isLogical q.method = false →
        (reduceQ q).values = q.values.map (fun qv =>
          match qv with
          | .val v => .val (reduceTop v)
          | x => x)) := by
  obtain ⟨n0, h0⟩ := rt_exists q h
  refine ⟨⟨n0, h0⟩, ?_, reduceQ_method q, reduceQ_attr q, ?_⟩
  · intro n r hr
    have ha := fromJSONF_lift (le_max_left n n0) hr
    have hb := fromJSONF_lift (le_max_right n n0) h0
    rw [ha] at hb
    injection hb
  · intro hnl
    rcases q with ⟨m, a, vals⟩
    simp only [QueryT.method] at hnl
    simp only [reduceQ, hnl, Bool.false_eq_true, if_false, QueryT.values]
    exact reduceQValsP_map vals

/-- Claim C5 (witness): a logical query nesting a comparison with a
Document operand and an `isNull`, with its round trip evaluated
concretely. -/
theorem c5_witness :
    (∃ n, fromJSONF n (toJSONQ (QueryT.mk "and" ""
        [.query (.mk "equal" "a" [.val (.vInt 1), .val (.vDoc [("$id", .vStr "d7")])]),
         .query (.mk "isNull" "b" [])])) =
      .ok (reduceQ (QueryT.mk "and" ""
        [.query (.mk "equal" "a" [.val (.vInt 1), .val (.vDoc [("$id", .vStr "d7")])]),
         .query (.mk "isNull" "b" [])])))
    ∧ fromJSONF 30 (toJSONQ (QueryT.mk "and" ""
        [.query (.mk "equal" "a" [.val (.vInt 1), .val (.vDoc [("$id", .vStr "d7")])]),
         .query (.mk "isNull" "b" [])])) =
      .ok (QueryT.mk "and" ""
        [.query (.mk "equal" "a" [.val (.vInt 1), .val (.vStr "d7")]),
         .query (.mk "isNull" "b" [])]) :=
  ⟨(c5_parse_toString_roundtrip (QueryT.mk "and" ""
      [.query (.mk "equal" "a" [.val (.vInt 1), .val (.vDoc [("$id", .vStr "d7")])]),
       .query (.mk "isNull" "b" [])]) rfl).1,
   rfl⟩
